import Mathlib

/-!
# Verification of the kokia async-debugger core

Shallow embedding of the kokia repository's async-tracking engine and its
collaborators, together with proofs of the specified properties.

Embedded sources:
* `kokia-async/src/task.rs` — task / callsite / edge records, the hash-based
  identities, the per-thread poll-scope stack and its resync operation;
* `kokia-async/src/tracker.rs` — `AsyncTracker` with `on_poll_entry`,
  `on_poll_exit`, `resync_from_stack`;
* `kokia-target/src/breakpoint.rs` and the byte-level part of
  `kokia-target/src/memory.rs` — software breakpoints over process memory;
* `kokia-core/src/breakpoint.rs` — the breakpoint manager;
* `kokia-dwarf/src/symbols.rs` — `reverse_resolve` over the sorted symbol list;
* `kokia-dwarf/src/lines.rs` — `find_first_line_in_range` over line-table rows.

Machine integers (`u64`, `u128`, `u8`) are modelled as `Nat` with explicit
`% 2 ^ w` reductions exactly where Rust's wrapping arithmetic overflows;
`Instant` timestamps are modelled by a `Nat` clock value passed to the
operations that call `Instant::now()`; Rust `HashMap`s are modelled as
association lists with the `HashMap` entry-API semantics (unique keys,
`or_insert` / `and_modify` / `insert` / `remove`).
-/

/-! ## Generic helpers: 64-bit arithmetic and association lists -/

/-- Reduction modulo `2 ^ 64`, the wrapping of Rust `u64` arithmetic. -/
def m64 (x : Nat) : Nat := x % 18446744073709551616

/-- Rust `u64::rotate_left`: the bits shifted out at the top re-enter at the bottom. -/
def rotl64 (x b : Nat) : Nat := m64 (x <<< b) ||| (x >>> (64 - b))

/-- First value stored under a key in an association list (`HashMap::get`). -/
def afind? {κ α : Type} [DecidableEq κ] : List (κ × α) → κ → Option α
  | [], _ => none
  | (k, v) :: rest, key => if k = key then some v else afind? rest key

/-- Apply `f` to the value stored under `key` (`HashMap::get_mut` followed by a
mutation); entries under other keys are untouched, and a missing key leaves the
list unchanged. -/
def amodify {κ α : Type} [DecidableEq κ] : List (κ × α) → κ → (α → α) → List (κ × α)
  | [], _, _ => []
  | (k, v) :: rest, key, f =>
    (k, if k = key then f v else v) :: amodify rest key f

/-- Rust `HashMap::entry(key).or_insert(v)`: insert only when the key is absent. -/
def ainsert {κ α : Type} [DecidableEq κ] (l : List (κ × α)) (key : κ) (v : α) :
    List (κ × α) :=
  if (afind? l key).isSome then l else l ++ [(key, v)]

/-- Rust `HashMap::entry(key).and_modify(f).or_insert(v)`. -/
def aupsert {κ α : Type} [DecidableEq κ] (l : List (κ × α)) (key : κ) (f : α → α) (v : α) :
    List (κ × α) :=
  if (afind? l key).isSome then amodify l key f else l ++ [(key, v)]

/-- Rust `HashMap::insert(key, v)`: overwrite the old value or append. -/
def aset {κ α : Type} [DecidableEq κ] (l : List (κ × α)) (key : κ) (v : α) :
    List (κ × α) :=
  if (afind? l key).isSome then amodify l key (fun _ => v) else l ++ [(key, v)]

/-- Rust `HashMap::remove(key)` (the mutation part). -/
def aremove {κ α : Type} [DecidableEq κ] (l : List (κ × α)) (key : κ) : List (κ × α) :=
  l.filter (fun p => ¬ p.1 = key)

/-!
## SipHash-1-3

`task.rs` computes callsite and edge identities with the `compute_hash`
helper, which feeds the values into `std::collections::hash_map::DefaultHasher`
and returns `hasher.finish() as u128`.  `DefaultHasher::new()` is SipHash-1-3
with both keys zero; `finish` produces a `u64`, so the `as u128` cast merely
zero-extends.  The hasher consumes a byte stream; the per-type `Hash`
implementations serialise a `u64` as its 8 little-endian bytes, an `Option` as
an 8-byte discriminant (0 = `None`, 1 = `Some`) followed by the payload, a
`u32` as 4 little-endian bytes, a `u128` as 16 little-endian bytes, and a
`String` as its UTF-8 bytes followed by a single `0xFF` byte.
-/

/-- The `n` little-endian bytes of `x`. -/
def leBytes (n x : Nat) : List Nat := (List.range n).map (fun i => (x >>> (8 * i)) &&& 255)

/-- A little-endian byte list read back as a number. -/
def wordLE : List Nat → Nat
  | [] => 0
  | b :: bs => b + (wordLE bs) * 256

/-- Internal state of a SipHash computation: four 64-bit lanes. -/
structure SipState where
  v0 : Nat
  v1 : Nat
  v2 : Nat
  v3 : Nat
deriving Repr, DecidableEq

/-- One SipHash round. -/
def sipRound (s : SipState) : SipState :=
  let v0 := m64 (s.v0 + s.v1)
  let v1 := rotl64 s.v1 13
  let v1 := v1 ^^^ v0
  let v0 := rotl64 v0 32
  let v2 := m64 (s.v2 + s.v3)
  let v3 := rotl64 s.v3 16
  let v3 := v3 ^^^ v2
  let v0 := m64 (v0 + v3)
  let v3 := rotl64 v3 21
  let v3 := v3 ^^^ v0
  let v2 := m64 (v2 + v1)
  let v1 := rotl64 v1 17
  let v1 := v1 ^^^ v2
  let v2 := rotl64 v2 32
  ⟨v0, v1, v2, v3⟩

/-- Absorb one 64-bit message word (SipHash-1-3: one round per word). -/
def sipCompress (s : SipState) (m : Nat) : SipState :=
  let s := { s with v3 := s.v3 ^^^ m }
  let s := sipRound s
  { s with v0 := s.v0 ^^^ m }

/-- The hasher's write loop: absorb bytes one at a time into a buffer of fewer
than 8 pending bytes, compressing each completed 8-byte little-endian word into
the state; returns the final state and the unprocessed tail. -/
def sipWrite (s : SipState) (buf : List Nat) : List Nat → SipState × List Nat
  | [] => (s, buf)
  | b :: bs =>
    let buf' := buf ++ [b]
    if buf'.length = 8 then sipWrite (sipCompress s (wordLE buf')) [] bs
    else sipWrite s buf' bs

/-- Initial SipHash-1-3 state for the all-zero key used by `DefaultHasher::new`. -/
def sipInit : SipState :=
  ⟨0x736f6d6570736575, 0x646f72616e646f6d, 0x6c7967656e657261, 0x7465646279746573⟩

/-- SipHash finalisation: absorb the length-tagged tail block, mix in `0xFF`,
run three rounds, and xor the lanes together (`Hasher::finish`). -/
def sipFinish (totalLen : Nat) (s : SipState) (tail : List Nat) : Nat :=
  let b := m64 ((totalLen % 256) <<< 56) ||| wordLE tail
  let s := sipCompress s b
  let s := { s with v2 := s.v2 ^^^ 255 }
  let s := sipRound (sipRound (sipRound s))
  s.v0 ^^^ s.v1 ^^^ s.v2 ^^^ s.v3

/-- SipHash-1-3 with the zero key over a byte stream: the value of
`DefaultHasher::finish` after writing those bytes. -/
def sip13 (bytes : List Nat) : Nat :=
  let (s, tail) := sipWrite sipInit [] bytes
  sipFinish bytes.length s tail

/-! ### Range of the hash: every lane stays below `2 ^ 64` -/

/-- All four lanes of a SipHash state are 64-bit values. -/
def SipBounded (s : SipState) : Prop :=
  s.v0 < 2 ^ 64 ∧ s.v1 < 2 ^ 64 ∧ s.v2 < 2 ^ 64 ∧ s.v3 < 2 ^ 64

/-!
## `kokia-async/src/task.rs` — data model

Task ids are the generator self pointers (`u64`); thread ids are OS thread
ids (`i32`, modelled as `Int`); edge ids and callsite ids are `u128` hash
values.  `Instant::now()` is modelled by the `now : Nat` argument threaded
into every operation that reads the clock.
-/

/-- Rust `LogicalFrame` (task.rs): one frame of the await chain. -/
structure LogicalFrame where
  task_id : Nat
  function_name : String
  source_location : Option (String × Nat)
  discriminant : Option Nat
deriving Repr, DecidableEq

/-- Rust `LogicalStack` (logical_stack.rs): the await-chain frames of a task. -/
structure LogicalStack where
  frames : List LogicalFrame
deriving Repr, DecidableEq

/-- Rust `LogicalStack::new`. -/
def LogicalStack.new : LogicalStack := ⟨[]⟩

/-- Rust `TaskInfo` (task.rs). -/
structure TaskInfo where
  id : Nat
  type_name : Option String
  first_seen : Nat
  last_seen : Nat
  current_discriminant : Option Nat
  last_rip : Option Nat
  is_root : Bool
  completed : Bool
  logical_stack : LogicalStack
deriving Repr, DecidableEq

/-- Rust `TaskInfo::new`: both timestamps start at the current instant. -/
def TaskInfo.new (id now : Nat) : TaskInfo :=
  { id := id
    type_name := none
    first_seen := now
    last_seen := now
    current_discriminant := none
    last_rip := none
    is_root := false
    completed := false
    logical_stack := LogicalStack.new }

/-- Rust `TaskInfo::touch`: refresh the last-seen timestamp. -/
def TaskInfo.touch (t : TaskInfo) (now : Nat) : TaskInfo := { t with last_seen := now }

/-- Rust `Callsite` (task.rs). -/
structure Callsite where
  parent : Nat
  suspend_idx : Option Nat
  file : Option String
  line : Option Nat
deriving Repr, DecidableEq

/-- Rust `Callsite::new`. -/
def Callsite.new (parent : Nat) : Callsite :=
  { parent := parent, suspend_idx := none, file := none, line := none }

/-- Byte stream an `Option<u32>` feeds to the hasher: an 8-byte discriminant,
then the 4 little-endian payload bytes when present. -/
def optU32Bytes : Option Nat → List Nat
  | none => leBytes 8 0
  | some x => leBytes 8 1 ++ leBytes 4 x

/-- UTF-8 bytes of a string. -/
def strBytes (s : String) : List Nat := s.toUTF8.toList.map (fun b => b.toNat)

/-- Byte stream an `Option<String>` feeds to the hasher: an 8-byte
discriminant, then the UTF-8 bytes and the `0xFF` terminator when present. -/
def optStrBytes : Option String → List Nat
  | none => leBytes 8 0
  | some s => leBytes 8 1 ++ strBytes s ++ [255]

/-- The byte stream `compute_hash` feeds to the hasher for
`Callsite::compute_id`: `parent`, `suspend_idx`, `file`, `line` in order. -/
def Callsite.hashStream (c : Callsite) : List Nat :=
  leBytes 8 c.parent ++ optU32Bytes c.suspend_idx ++ optStrBytes c.file ++ optU32Bytes c.line

/-- Rust `Callsite::compute_id`: `compute_hash(parent, suspend_idx, file, line)`,
a `u64` hash zero-extended to `u128`. -/
def Callsite.compute_id (c : Callsite) : Nat := sip13 c.hashStream

/-- Rust `Edge` (task.rs): a parent awaiting a child through a callsite. -/
structure Edge where
  parent : Nat
  child : Nat
  callsite : Nat
  first_seen : Nat
  last_seen : Nat
  completed : Bool
deriving Repr, DecidableEq

/-- Rust `Edge::new`. -/
def Edge.new (parent child callsite now : Nat) : Edge :=
  { parent := parent
    child := child
    callsite := callsite
    first_seen := now
    last_seen := now
    completed := false }

/-- The byte stream for `Edge::compute_id`: `parent`, `child`, and the
`u128` callsite id in order. -/
def Edge.hashStream (e : Edge) : List Nat :=
  leBytes 8 e.parent ++ leBytes 8 e.child ++ leBytes 16 e.callsite

/-- Rust `Edge::compute_id`: `compute_hash(parent, child, callsite.0)`. -/
def Edge.compute_id (e : Edge) : Nat := sip13 e.hashStream

/-- Rust `Edge::touch`. -/
def Edge.touch (e : Edge) (now : Nat) : Edge := { e with last_seen := now }

/-- Rust `TaskTracker` (task.rs): the task table. -/
structure TaskTracker where
  tasks : List (Nat × TaskInfo)
deriving Repr, DecidableEq

/-- Rust `TaskTracker::new`. -/
def TaskTracker.new : TaskTracker := ⟨[]⟩

/-- Rust `TaskTracker::register`: `entry(id).or_insert(task)`. -/
def TaskTracker.register (tr : TaskTracker) (task : TaskInfo) : TaskTracker :=
  ⟨ainsert tr.tasks task.id task⟩

/-- Rust `TaskTracker::get`. -/
def TaskTracker.get (tr : TaskTracker) (id : Nat) : Option TaskInfo := afind? tr.tasks id

/-- Rust `EdgeTracker` (task.rs): the edge table keyed by edge id. -/
structure EdgeTracker where
  edges : List (Nat × Edge)
deriving Repr, DecidableEq

/-- Rust `EdgeTracker::new`. -/
def EdgeTracker.new : EdgeTracker := ⟨[]⟩

/-- Rust `EdgeTracker::register_or_update`: build the edge, compute its id, then
`entry(id).and_modify(touch).or_insert(edge)`; returns the edge id. -/
def EdgeTracker.register_or_update (tr : EdgeTracker) (parent child callsite now : Nat) :
    Nat × EdgeTracker :=
  let edge := Edge.new parent child callsite now
  let edge_id := edge.compute_id
  (edge_id, ⟨aupsert tr.edges edge_id (fun e => e.touch now) edge⟩)

/-- Rust `EdgeTracker::get`. -/
def EdgeTracker.get (tr : EdgeTracker) (id : Nat) : Option Edge := afind? tr.edges id

/-- Rust `EdgeTracker::mark_completed`: set the completed flag of the edge stored
under `edge_id` (no-op when absent, like `get_mut` returning `None`). -/
def EdgeTracker.mark_completed (tr : EdgeTracker) (edge_id : Nat) : EdgeTracker :=
  ⟨amodify tr.edges edge_id (fun e => { e with completed := true })⟩

/-- Rust `CallsiteTracker` (task.rs): interned callsites keyed by callsite id. -/
structure CallsiteTracker where
  callsites : List (Nat × Callsite)
deriving Repr, DecidableEq

/-- Rust `CallsiteTracker::new`. -/
def CallsiteTracker.new : CallsiteTracker := ⟨[]⟩

/-- Rust `CallsiteTracker::register`: compute the id and `entry(id).or_insert`;
returns the id. -/
def CallsiteTracker.register (tr : CallsiteTracker) (c : Callsite) : Nat × CallsiteTracker :=
  let id := c.compute_id
  (id, ⟨ainsert tr.callsites id c⟩)

/-- Rust `CallsiteTracker::get`. -/
def CallsiteTracker.get (tr : CallsiteTracker) (id : Nat) : Option Callsite :=
  afind? tr.callsites id

/-- Rust `PollScope` (task.rs): the per-thread stack of tasks whose polls are on
the OS stack, innermost last (a `Vec` pushed/popped at the end). -/
structure PollScope where
  stack : List Nat
deriving Repr, DecidableEq

/-- Rust `PollScope::new`. -/
def PollScope.new : PollScope := ⟨[]⟩

/-- Rust `PollScope::push`. -/
def PollScope.push (s : PollScope) (task_id : Nat) : PollScope := ⟨s.stack ++ [task_id]⟩

/-- Rust `PollScope::pop`: `Vec::pop` removes and returns the last element. -/
def PollScope.pop (s : PollScope) : Option Nat × PollScope :=
  (s.stack.getLast?, ⟨s.stack.dropLast⟩)

/-- Rust `PollScope::top`: the last (deepest) task. -/
def PollScope.top (s : PollScope) : Option Nat := s.stack.getLast?

/-- Rust `PollScope::clear`. -/
def PollScope.clear (_ : PollScope) : PollScope := ⟨[]⟩

/-- The longest-common-prefix loop of `PollScope::resync`: walk both stacks
in lock step, extending `common_len` while the entries agree and breaking at
the first mismatch. -/
def commonPrefixLen : List Nat → List Nat → Nat
  | a :: as, b :: bs => if a = b then commonPrefixLen as bs + 1 else 0
  | _, _ => 0

/-- Rust `PollScope::resync`: truncate to the longest common prefix with
`actual_stack` and append the remainder of `actual_stack`. -/
def PollScope.resync (s : PollScope) (actual_stack : List Nat) : PollScope :=
  let common_len := commonPrefixLen s.stack actual_stack
  ⟨s.stack.take common_len ++ actual_stack.drop common_len⟩

/-- Rust `ThreadPollScopeManager` (task.rs): one `PollScope` per thread. -/
structure ThreadPollScopeManager where
  scopes : List (Int × PollScope)
deriving Repr, DecidableEq

/-- Rust `ThreadPollScopeManager::new`. -/
def ThreadPollScopeManager.new : ThreadPollScopeManager := ⟨[]⟩

/-- Rust `ThreadPollScopeManager::get`. -/
def ThreadPollScopeManager.get (m : ThreadPollScopeManager) (tid : Int) : Option PollScope :=
  afind? m.scopes tid

/-- Rust `get_or_create(tid)` followed by an in-place mutation `f` of the returned
scope: the entry is created (empty) when absent and then mutated. -/
def ThreadPollScopeManager.updateScope (m : ThreadPollScopeManager) (tid : Int)
    (f : PollScope → PollScope) : ThreadPollScopeManager :=
  match afind? m.scopes tid with
  | some _ => ⟨amodify m.scopes tid f⟩
  | none => ⟨m.scopes ++ [(tid, f PollScope.new)]⟩

/-- Rust `get_or_create(tid).pop()`: create the scope when absent, pop it in place,
and return the popped task. -/
def ThreadPollScopeManager.popScope (m : ThreadPollScopeManager) (tid : Int) :
    Option Nat × ThreadPollScopeManager :=
  match afind? m.scopes tid with
  | some s =>
    let (c, s') := s.pop
    (c, ⟨amodify m.scopes tid (fun _ => s')⟩)
  | none =>
    let (c, s') := PollScope.new.pop
    (c, ⟨m.scopes ++ [(tid, s')]⟩)

/-!
## `kokia-async/src/tracker.rs` — the graph engine

`AsyncTracker` also holds a `GenFutureDetector`, which is a pair of fixed
regular expressions built once at construction; it takes no part in any of the
operations below and is omitted from the state.  The error type stands for the
`anyhow::Error` of the Rust `Result`s.
-/

/-- The error side of the Rust `Result` type used by the tracker and the
target-process layers. -/
inductive KErr
  | memoryFault
  | other
deriving Repr, DecidableEq

/-- Rust `AsyncTracker` (tracker.rs). -/
structure AsyncTracker where
  task_tracker : TaskTracker
  edge_tracker : EdgeTracker
  callsite_tracker : CallsiteTracker
  scope_manager : ThreadPollScopeManager
deriving Repr, DecidableEq

/-- Rust `AsyncTracker::new` (the detector construction aside, all tables start
empty). -/
def AsyncTracker.new : AsyncTracker :=
  { task_tracker := TaskTracker.new
    edge_tracker := EdgeTracker.new
    callsite_tracker := CallsiteTracker.new
    scope_manager := ThreadPollScopeManager.new }

/-- The pure state transformer of `AsyncTracker::on_poll_entry`; the Rust
body contains no fallible operation and always returns `Ok(())`. -/
def AsyncTracker.on_poll_entry_run (st : AsyncTracker) (tid : Int) (child_self rip : Nat)
    (parent_task discriminant : Option Nat) (function_name : Option String) (now : Nat) :
    AsyncTracker :=
  let child := child_self
  -- 1) parent search: frame-scan result first, then the scope-stack top
  let parent := parent_task.orElse (fun _ => (st.scope_manager.get tid).bind PollScope.top)
  -- 2) register the task or update its attributes
  let tt1 : TaskTracker :=
    match st.task_tracker.get child with
    | some _ =>
      ⟨amodify st.task_tracker.tasks child (fun t =>
        let t := t.touch now
        let t := { t with last_rip := some rip }
        let t := match discriminant with
          | some d => { t with current_discriminant := some d }
          | none => t
        -- the function name is stored only when not already set
        if t.type_name = none ∧ function_name.isSome
          then { t with type_name := function_name } else t)⟩
    | none =>
      let task := TaskInfo.new child now
      let task := { task with last_rip := some rip, type_name := function_name }
      let task := match discriminant with
        | some d => { task with current_discriminant := some d }
        | none => task
      st.task_tracker.register task
  -- source-location lookup is still a TODO in the source
  let file : Option String := none
  let line : Option Nat := none
  match parent with
  | some parent_id =>
    -- 3) edge registration (callsite identification)
    let parent_discriminant := (tt1.get parent_id).bind (fun t => t.current_discriminant)
    let callsite : Callsite :=
      { parent := parent_id
        suspend_idx := parent_discriminant.map (fun d => d % 4294967296)  -- `d as u32`
        file := file
        line := line }
    let (callsite_id, ct1) := st.callsite_tracker.register callsite
    let (_, et1) := st.edge_tracker.register_or_update parent_id child callsite_id now
    -- 4) push the child onto the dynamic scope
    let sm1 := st.scope_manager.updateScope tid (fun s => s.push child)
    { task_tracker := tt1, edge_tracker := et1, callsite_tracker := ct1, scope_manager := sm1 }
  | none =>
    -- no parent found: the child is a root task
    let tt2 : TaskTracker := ⟨amodify tt1.tasks child (fun t => { t with is_root := true })⟩
    let sm1 := st.scope_manager.updateScope tid (fun s => s.push child)
    { task_tracker := tt2, edge_tracker := st.edge_tracker
      callsite_tracker := st.callsite_tracker, scope_manager := sm1 }

/-- Rust `AsyncTracker::on_poll_entry` (`Result<()>`-typed wrapper). -/
def AsyncTracker.on_poll_entry (st : AsyncTracker) (tid : Int) (child_self rip : Nat)
    (parent_task discriminant : Option Nat) (function_name : Option String) (now : Nat) :
    Except KErr AsyncTracker :=
  Except.ok (st.on_poll_entry_run tid child_self rip parent_task discriminant function_name now)

/-- Rust `AsyncTracker::scan_parent_genfuture`: a stub in the source that always
returns `Ok(None)`. -/
def AsyncTracker.scan_parent_genfuture (_ : AsyncTracker) (_ : Int) :
    Except KErr (Option Nat) :=
  Except.ok none

/-- Rust `AsyncTracker::find_parent_task`: frame scan first, then the scope top. -/
def AsyncTracker.find_parent_task (st : AsyncTracker) (tid : Int) :
    Except KErr (Option Nat) :=
  match st.scan_parent_genfuture tid with
  | .error e => .error e
  | .ok r => .ok (r.orElse (fun _ => (st.scope_manager.get tid).bind PollScope.top))

/-- Rust `AsyncTracker::on_poll_exit`: pop the thread's scope; on `Ready`, mark the
(parent, child) edges and the child task completed. -/
def AsyncTracker.on_poll_exit (st : AsyncTracker) (tid : Int) (_rip : Nat) (is_ready : Bool) :
    Except KErr AsyncTracker :=
  let (child, sm1) := st.scope_manager.popScope tid
  let st1 := { st with scope_manager := sm1 }
  match child with
  | some child_id =>
    if is_ready then
      -- with a parent present, mark that callsite's edges completed
      match st1.find_parent_task tid with
      | .error e => .error e
      | .ok parent =>
        let et1 :=
          match parent with
          | some parent_id =>
            -- collect the ids of the edges from the parent to the popped child
            let edge_ids := st1.edge_tracker.edges.filterMap (fun p =>
              if p.2.parent = parent_id ∧ p.2.child = child_id
                then some p.2.compute_id else none)
            edge_ids.foldl (fun et id => et.mark_completed id) st1.edge_tracker
          | none => st1.edge_tracker
        -- mark the task itself completed (`get_mut` is a no-op when absent)
        let tt1 : TaskTracker :=
          ⟨amodify st1.task_tracker.tasks child_id (fun t => { t with completed := true })⟩
        .ok { st1 with edge_tracker := et1, task_tracker := tt1 }
    else
      .ok st1
  | none =>
    -- empty scope: a resync is needed; the caller performs it explicitly
    .ok st1

/-- Rust `AsyncTracker::resync_from_stack`: resynchronise the thread's scope from
the OS-stack task list. -/
def AsyncTracker.resync_from_stack (st : AsyncTracker) (tid : Int) (actual_tasks : List Nat) :
    AsyncTracker :=
  { st with scope_manager := st.scope_manager.updateScope tid (fun s => s.resync actual_tasks) }

/-- Rust `AsyncTracker::async_backtrace`: the thread's current scope stack. -/
def AsyncTracker.async_backtrace (st : AsyncTracker) (tid : Int) : List Nat :=
  ((st.scope_manager.get tid).map (fun s => s.stack)).getD []

/-- The scope stack recorded for a thread (empty when the thread has none):
the `ThreadScopes[tid]` of the specification. -/
def AsyncTracker.scopeStack (st : AsyncTracker) (tid : Int) : List Nat :=
  ((st.scope_manager.get tid).map (fun s => s.stack)).getD []

/-!
## `kokia-target` — process memory and software breakpoints

Process memory is a partial map from addresses to bytes; reads and writes of
unmapped addresses fail (the `/proc/pid/mem` / ptrace paths of `memory.rs`
surface `EIO`/`EFAULT` as errors).
-/

/-- The traced process's memory: a byte at every mapped address. -/
def Mem : Type := Nat → Option Nat

/-- Rust `Memory::read_u8`. -/
def Mem.read_u8 (m : Mem) (addr : Nat) : Except KErr Nat :=
  match m addr with
  | some b => .ok b
  | none => .error .memoryFault

/-- Rust `Memory::write_u8`. -/
def Mem.write_u8 (m : Mem) (addr v : Nat) : Except KErr Mem :=
  match m addr with
  | some _ => .ok (fun a => if a = addr then some v else m a)
  | none => .error .memoryFault

/-- Rust `INT3_OPCODE` (breakpoint.rs): the one-byte trap instruction. -/
def INT3_OPCODE : Nat := 0xCC

/-- Rust `SoftwareBreakpoint` (kokia-target/src/breakpoint.rs). -/
structure SoftwareBreakpoint where
  address : Nat
  original_byte : Nat
  enabled : Bool
deriving Repr, DecidableEq

/-- Rust `SoftwareBreakpoint::new`. -/
def SoftwareBreakpoint.new (address : Nat) : SoftwareBreakpoint :=
  { address := address, original_byte := 0, enabled := false }

/-- Rust `SoftwareBreakpoint::enable`: save the byte at the address and overwrite
it with the trap opcode; a no-op when already enabled. -/
def SoftwareBreakpoint.enable (bp : SoftwareBreakpoint) (m : Mem) :
    Except KErr (SoftwareBreakpoint × Mem) :=
  if bp.enabled then .ok (bp, m)
  else
    match m.read_u8 bp.address with
    | .error e => .error e
    | .ok orig =>
      match m.write_u8 bp.address INT3_OPCODE with
      | .error e => .error e
      | .ok m' => .ok ({ bp with original_byte := orig, enabled := true }, m')

/-- Rust `SoftwareBreakpoint::disable`: write the saved byte back; a no-op when
not enabled. -/
def SoftwareBreakpoint.disable (bp : SoftwareBreakpoint) (m : Mem) :
    Except KErr (SoftwareBreakpoint × Mem) :=
  if bp.enabled then
    match m.write_u8 bp.address bp.original_byte with
    | .error e => .error e
    | .ok m' => .ok ({ bp with enabled := false }, m')
  else .ok (bp, m)

/-!
## `kokia-core/src/breakpoint.rs` — the breakpoint manager
-/

/-- Rust `BreakpointType`. -/
inductive BreakpointType
  | User
  | AsyncEntry
  | AsyncExit
  | Temporary
deriving Repr, DecidableEq

/-- Rust `Breakpoint` (the logical record). -/
structure Breakpoint where
  id : Nat
  address : Nat
  enabled : Bool
  bp_type : BreakpointType
deriving Repr, DecidableEq

/-- Rust `BreakpointManager`: logical breakpoints and their software counterparts,
keyed by id. -/
structure BreakpointManager where
  breakpoints : List (Nat × (Breakpoint × SoftwareBreakpoint))
  next_id : Nat
deriving Repr, DecidableEq

/-- Rust `BreakpointManager::new`: ids start at 1. -/
def BreakpointManager.new : BreakpointManager := ⟨[], 1⟩

/-- Rust `BreakpointManager::add_and_enable_with_type`: take a fresh id, build an
enabled record, enable a fresh software breakpoint at the address, and insert
the pair.  (On the error path Rust has already advanced `next_id`; that state
is dropped here together with the manager, and no claim observes it.) -/
def BreakpointManager.add_and_enable_with_type (mgr : BreakpointManager) (address : Nat)
    (memory : Mem) (bp_type : BreakpointType) :
    Except KErr (Nat × BreakpointManager × Mem) :=
  let id := mgr.next_id
  let bp : Breakpoint := { id := id, address := address, enabled := true, bp_type := bp_type }
  let sw_bp := SoftwareBreakpoint.new address
  match sw_bp.enable memory with
  | .error e => .error e
  | .ok (sw_bp', m') =>
    .ok (id, ⟨aset mgr.breakpoints id (bp, sw_bp'), mgr.next_id + 1⟩, m')

/-- Rust `BreakpointManager::add_and_enable`: the `User`-typed shorthand. -/
def BreakpointManager.add_and_enable (mgr : BreakpointManager) (address : Nat) (memory : Mem) :
    Except KErr (Nat × BreakpointManager × Mem) :=
  mgr.add_and_enable_with_type address memory BreakpointType.User

/-- Rust `BreakpointManager::remove_and_disable`: remove the record and restore
the original byte; removing an unknown id succeeds without touching memory. -/
def BreakpointManager.remove_and_disable (mgr : BreakpointManager) (id : Nat) (memory : Mem) :
    Except KErr (BreakpointManager × Mem) :=
  match afind? mgr.breakpoints id with
  | some (_, sw_bp) =>
    match sw_bp.disable memory with
    | .error e => .error e
    | .ok (_, m') => .ok (⟨aremove mgr.breakpoints id, mgr.next_id⟩, m')
  | none => .ok (mgr, memory)

/-- Rust `BreakpointManager::find_by_address`: the first enabled breakpoint record
at the address, if any. -/
def BreakpointManager.find_by_address (mgr : BreakpointManager) (address : Nat) : Option Nat :=
  (mgr.breakpoints.find? (fun p => decide (p.2.1.address = address) && p.2.1.enabled)).map
    (fun p => p.2.1.id)

/-- The number of enabled breakpoint records at an address (the quantity the
at-most-one-per-address invariant constrains). -/
def BreakpointManager.enabledCountAt (mgr : BreakpointManager) (address : Nat) : Nat :=
  (mgr.breakpoints.filter (fun p => decide (p.2.1.address = address) && p.2.1.enabled)).length

/-!
## `kokia-dwarf/src/symbols.rs` — reverse symbol resolution

`SymbolResolver::new` sorts the symbol vector by address; `reverse_resolve`
performs `slice::binary_search_by_key` on it.  The search loop is embedded
with an explicit iteration budget: the half-open interval halves on every
step, so `len + 1` iterations always suffice and the budget is never
exhausted.
-/

/-- Rust `Symbol` (symbols.rs); named `DwSymbol` here because Mathlib already
declares a root `Symbol`. -/
structure DwSymbol where
  name : String
  demangled_name : String
  address : Nat
  size : Nat
deriving Repr, DecidableEq

/-- Placeholder for the (unreachable) out-of-range slice access. -/
def dummySymbol : DwSymbol := { name := "", demangled_name := "", address := 0, size := 0 }

/-- The loop of `slice::binary_search_by_key`: compare the key at `mid` with
the target, narrowing `[left, right)`; `Ok` carries a matching index, `Err`
the insertion point. -/
def binarySearchLoop (keys : List Nat) (key : Nat) : Nat → Nat → Nat → Except Nat Nat
  | 0, left, _ => .error left
  | fuel + 1, left, right =>
    if left < right then
      let size := right - left
      let mid := left + size / 2
      let k := keys.getD mid 0
      if k < key then binarySearchLoop keys key fuel (mid + 1) right
      else if key < k then binarySearchLoop keys key fuel left mid
      else .ok mid
    else .error left

/-- Rust `slice::binary_search_by_key` over a list of keys. -/
def binarySearchByKey (keys : List Nat) (key : Nat) : Except Nat Nat :=
  binarySearchLoop keys key (keys.length + 1) 0 keys.length

/-- Rust `SymbolResolver` (the part `reverse_resolve` reads: the address-sorted
symbol vector). -/
structure SymbolResolver where
  symbols_by_address : List DwSymbol
deriving Repr, DecidableEq

/-- Rust `SymbolResolver::reverse_resolve`: binary search on the sorted symbol
addresses; on a miss at insertion point `idx > 0`, look at the predecessor:
inside its sized range return it, otherwise return it as the nearest lower
symbol, else `None`. -/
def SymbolResolver.reverse_resolve (r : SymbolResolver) (addr : Nat) : Option DwSymbol :=
  match binarySearchByKey (r.symbols_by_address.map DwSymbol.address) addr with
  | .ok idx => some (r.symbols_by_address.getD idx dummySymbol)
  | .error idx =>
    if idx > 0 then
      let sym := r.symbols_by_address.getD (idx - 1) dummySymbol
      if sym.size > 0 ∧ addr < sym.address + sym.size then some sym
      else if addr ≥ sym.address then some sym
      else none
    else none

/-!
## `kokia-dwarf/src/lines.rs` — first statement line in a range

A compilation unit is modelled as `Option (List LineRow)`: `none` when the
unit has no line program, otherwise its row sequence in program order.
-/

/-- One row of a DWARF line program (the fields the walk reads). -/
structure LineRow where
  address : Nat
  end_sequence : Bool
  line : Option Nat
  is_stmt : Bool
deriving Repr, DecidableEq

/-- The acceptance test the row loop applies: in `[start_addr, end_addr)`,
not an end-of-sequence marker, carrying a positive line number, an `is_stmt`
row, and not at the function start itself. -/
def rowQualifies (start_addr end_addr : Nat) (r : LineRow) : Bool :=
  decide (start_addr ≤ r.address) && decide (r.address < end_addr) && !r.end_sequence &&
    (match r.line with
     | some l => decide (0 < l)
     | none => false) && r.is_stmt && !(decide (r.address = start_addr))

/-- The row loop of `find_first_line_in_range`: the address of the first
qualifying row, if any. -/
def findFirstLineInRows (rows : List LineRow) (start_addr end_addr : Nat) : Option Nat :=
  (rows.find? (rowQualifies start_addr end_addr)).map (fun r => r.address)

/-- Rust `LineInfoProvider::find_first_line_in_range`: walk the units; the first
unit with a line program decides — the first qualifying row's address, or
`start_addr` as the explicit fallback when no row qualifies; `None` only when
no unit has a line program. -/
def find_first_line_in_range (units : List (Option (List LineRow)))
    (start_addr end_addr : Nat) : Option Nat :=
  match units with
  | [] => none
  | none :: rest => find_first_line_in_range rest start_addr end_addr
  | some rows :: _ =>
    some ((findFirstLineInRows rows start_addr end_addr).getD start_addr)

/-!
## Tracker traces

A tracker event is one call of a public mutating tracker operation; `runE`
replays a list of them from a state, propagating the `Result` as the
orchestrator does.
-/

/-- One public mutating tracker operation with its arguments. -/
inductive TrackerEv
  | pollEntry (tid : Int) (child_self rip : Nat) (parent_task discriminant : Option Nat)
      (function_name : Option String) (now : Nat)
  | pollExit (tid : Int) (rip : Nat) (is_ready : Bool)
  | resyncStack (tid : Int) (actual_tasks : List Nat)

/-- Apply one event (`Result`-typed, as the Rust operations are). -/
def stepE (st : AsyncTracker) : TrackerEv → Except KErr AsyncTracker
  | .pollEntry tid c rip p d f now => st.on_poll_entry tid c rip p d f now
  | .pollExit tid rip r => st.on_poll_exit tid rip r
  | .resyncStack tid a => .ok (st.resync_from_stack tid a)

/-- Apply one event, total form (every operation in fact returns `Ok`,
see `stepE_eq_ok`). -/
def stepT (st : AsyncTracker) (ev : TrackerEv) : AsyncTracker :=
  match stepE st ev with
  | .ok st' => st'
  | .error _ => st

/-- Replay a list of tracker events. -/
def runE (st : AsyncTracker) : List TrackerEv → Except KErr AsyncTracker
  | [] => .ok st
  | ev :: evs =>
    match stepE st ev with
    | .ok st' => runE st' evs
    | .error e => .error e

/-- Replay a list of tracker events, total form. -/
def runT (st : AsyncTracker) (evs : List TrackerEv) : AsyncTracker :=
  evs.foldl stepT st

/-- The parent the tracker resolves for an entry event in a given state:
the explicit frame-scan parent when given, otherwise the scope top. -/
def resolvedParent (st : AsyncTracker) (tid : Int) (parent_task : Option Nat) : Option Nat :=
  parent_task.orElse (fun _ => (st.scope_manager.get tid).bind PollScope.top)

/-- Whether, while replaying `evs` from `st`, some entry event for task `c`
observes no parent (neither an explicit one nor a scope top). -/
def sawNoParent (c : Nat) : AsyncTracker → List TrackerEv → Bool
  | _, [] => false
  | st, ev :: evs =>
    (match ev with
     | .pollEntry tid child _ p _ _ _ =>
       decide (child = c) && (resolvedParent st tid p).isNone
     | _ => false) || sawNoParent c (stepT st ev) evs

/-- The recorded root flag of a task. -/
def isRoot? (st : AsyncTracker) (c : Nat) : Option Bool :=
  (st.task_tracker.get c).map TaskInfo.is_root

/-- A one-page memory fixture: address 100 holds the byte 144 (a `nop`),
everything else is unmapped. -/
def demoMem : Mem := fun a => if a = 100 then some 144 else none

/-- The manager state after installing twice at address 100 on the fixture
memory (both installs succeed). -/
def demoDoubleMgr : BreakpointManager :=
  match BreakpointManager.new.add_and_enable_with_type 100 demoMem BreakpointType.User with
  | .ok (_, mgr1, mem1) =>
    match mgr1.add_and_enable_with_type 100 mem1 BreakpointType.User with
    | .ok (_, mgr2, _) => mgr2
    | .error _ => mgr1
  | .error _ => BreakpointManager.new

/-- A one-symbol table: `main` at file offset 4096 with recorded size 256. -/
def demoResolver : SymbolResolver :=
  SymbolResolver.mk [DwSymbol.mk "main" "main" 4096 256]

/-- One qualifying row at address 6 with line 10. -/
def demoRows : List LineRow :=
  [LineRow.mk 6 false (some 10) true]

/-- A task registered at instant 0 with id 7. -/
def demoTask : TaskInfo := TaskInfo.new 7 0

/-- A tracker that already knows task 7. -/
def demoTracker : AsyncTracker :=
  { AsyncTracker.new with task_tracker := TaskTracker.mk [(7, demoTask)] }

/-- A tracker whose thread 1 is inside a poll of task 7 (empty tables). -/
def demoScopeTracker : AsyncTracker :=
  { AsyncTracker.new with scope_manager := ThreadPollScopeManager.mk [(1, PollScope.mk [7])] }

/-- Two entries for task 10 on thread 1: the first sees no parent, the second
names task 99 as explicit parent. -/
def demoRootEvs : List TrackerEv :=
  [TrackerEv.pollEntry 1 10 0 none none none 0,
   TrackerEv.pollEntry 1 10 0 (some 99) none none 1]

theorem m64_lt (x : Nat) : m64 x < 2 ^ 64 := by
  have : (18446744073709551616 : Nat) = 2 ^ 64 := by norm_num
  simpa [m64, this] using Nat.mod_lt x (by positivity)

theorem lor_lt64 {x y : Nat} (hx : x < 2 ^ 64) (hy : y < 2 ^ 64) : x ||| y < 2 ^ 64 :=
  Nat.bitwise_lt hx hy

theorem xor_lt64 {x y : Nat} (hx : x < 2 ^ 64) (hy : y < 2 ^ 64) : x ^^^ y < 2 ^ 64 :=
  Nat.bitwise_lt hx hy

theorem shiftRight_le_self (x k : Nat) : x >>> k ≤ x := by
  simp only [Nat.shiftRight_eq_div_pow]
  exact Nat.div_le_self _ _

theorem rotl64_lt {x : Nat} (b : Nat) (hx : x < 2 ^ 64) : rotl64 x b < 2 ^ 64 :=
  lor_lt64 (m64_lt _) (lt_of_le_of_lt (shiftRight_le_self _ _) hx)

theorem sipRound_bounded {s : SipState} (h : SipBounded s) : SipBounded (sipRound s) := by
  obtain ⟨h0, h1, h2, h3⟩ := h
  refine ⟨?_, ?_, ?_, ?_⟩ <;>
    simp only [sipRound] <;>
    first
      | exact m64_lt _
      | exact xor_lt64 (rotl64_lt _ (xor_lt64 (rotl64_lt _ h1) (m64_lt _))) (m64_lt _)
      | exact xor_lt64 (rotl64_lt _ (xor_lt64 (rotl64_lt _ h3) (m64_lt _))) (m64_lt _)
      | exact rotl64_lt _ (m64_lt _)

theorem sipCompress_bounded {s : SipState} {m : Nat} (h : SipBounded s) (hm : m < 2 ^ 64) :
    SipBounded (sipCompress s m) := by
  obtain ⟨h0, h1, h2, h3⟩ := h
  have hr := sipRound_bounded (s := { s with v3 := s.v3 ^^^ m })
    ⟨h0, h1, h2, xor_lt64 h3 hm⟩
  obtain ⟨r0, r1, r2, r3⟩ := hr
  exact ⟨xor_lt64 r0 hm, r1, r2, r3⟩

theorem wordLE_lt {bs : List Nat} (h : ∀ b ∈ bs, b < 256) :
    wordLE bs < 2 ^ (8 * bs.length) := by
  induction bs with
  | nil => simp [wordLE]
  | cons b bs ih =>
    have hb : b < 256 := h b (by simp)
    have hrest : wordLE bs < 2 ^ (8 * bs.length) := ih (fun x hx => h x (by simp [hx]))
    calc wordLE (b :: bs) = b + (wordLE bs) * 256 := rfl
      _ < 256 + (wordLE bs) * 256 := by omega
      _ = (wordLE bs + 1) * 256 := by ring
      _ ≤ (2 ^ (8 * bs.length)) * 256 := Nat.mul_le_mul_right 256 (by omega)
      _ = 2 ^ (8 * (bs.length + 1)) := by
          rw [show (256 : Nat) = 2 ^ 8 by norm_num, ← pow_add]
          ring_nf

theorem leBytes_lt (n x : Nat) : ∀ b ∈ leBytes n x, b < 256 := by
  intro b hb
  simp only [leBytes, List.mem_map] at hb
  obtain ⟨i, _, rfl⟩ := hb
  have : ((x >>> (8 * i)) &&& 255) ≤ 255 := Nat.and_le_right
  omega

theorem sipWrite_bounded : ∀ (bytes : List Nat) (s : SipState) (buf : List Nat),
    SipBounded s → buf.length < 8 → (∀ b ∈ buf, b < 256) → (∀ b ∈ bytes, b < 256) →
    SipBounded (sipWrite s buf bytes).1 ∧ (sipWrite s buf bytes).2.length < 8 ∧
      (∀ b ∈ (sipWrite s buf bytes).2, b < 256) := by
  intro bytes
  induction bytes with
  | nil =>
    intro s buf hs hlen hbuf _
    exact ⟨hs, hlen, hbuf⟩
  | cons b bs ih =>
    intro s buf hs hlen hbuf hbytes
    have hb : b < 256 := hbytes b (by simp)
    have hbuf' : ∀ x ∈ buf ++ [b], x < 256 := by
      intro x hx
      rcases List.mem_append.mp hx with h | h
      · exact hbuf x h
      · simp only [List.mem_singleton] at h; omega
    have hbs : ∀ x ∈ bs, x < 256 := fun x hx => hbytes x (by simp [hx])
    by_cases hfull : buf.length = 7
    · have hword : wordLE (buf ++ [b]) < 2 ^ 64 := by
        have h8 : (buf ++ [b]).length = 8 := by simp [hfull]
        have := wordLE_lt hbuf'
        rw [h8] at this
        simpa using this
      have := ih (sipCompress s (wordLE (buf ++ [b]))) []
        (sipCompress_bounded hs hword) (by simp) (by simp) hbs
      simpa [sipWrite, hfull] using this
    · have hlen' : (buf ++ [b]).length < 8 := by
        simp only [List.length_append, List.length_singleton]
        omega
      have := ih s (buf ++ [b]) hs hlen' hbuf' hbs
      simpa [sipWrite, hfull] using this

/-- Rust `DefaultHasher::finish` returns a `u64`: the hash of any byte stream is
below `2 ^ 64`. -/
theorem sip13_lt {bytes : List Nat} (h : ∀ b ∈ bytes, b < 256) : sip13 bytes < 2 ^ 64 := by
  have hinit : SipBounded sipInit := by
    refine ⟨?_, ?_, ?_, ?_⟩ <;> norm_num [sipInit]
  obtain ⟨hs, hlen, htail⟩ := sipWrite_bounded bytes sipInit [] hinit (by simp) (by simp) h
  have htw : wordLE (sipWrite sipInit [] bytes).2 < 2 ^ 64 := by
    calc wordLE (sipWrite sipInit [] bytes).2
        < 2 ^ (8 * (sipWrite sipInit [] bytes).2.length) := wordLE_lt htail
      _ ≤ 2 ^ 64 := Nat.pow_le_pow_right (by norm_num) (by omega)
  have hb : m64 ((bytes.length % 256) <<< 56) ||| wordLE (sipWrite sipInit [] bytes).2 < 2 ^ 64 :=
    lor_lt64 (m64_lt _) htw
  obtain ⟨c0, c1, c2, c3⟩ := sipCompress_bounded hs hb
  have hxor : SipBounded { sipCompress (sipWrite sipInit [] bytes).1
      (m64 ((bytes.length % 256) <<< 56) ||| wordLE (sipWrite sipInit [] bytes).2) with
      v2 := (sipCompress (sipWrite sipInit [] bytes).1
      (m64 ((bytes.length % 256) <<< 56) ||| wordLE (sipWrite sipInit [] bytes).2)).v2 ^^^ 255 } :=
    ⟨c0, c1, xor_lt64 c2 (by norm_num), c3⟩
  obtain ⟨f0, f1, f2, f3⟩ := sipRound_bounded (sipRound_bounded (sipRound_bounded hxor))
  show sipFinish bytes.length (sipWrite sipInit [] bytes).1 (sipWrite sipInit [] bytes).2 < 2 ^ 64
  simp only [sipFinish]
  exact xor_lt64 (xor_lt64 (xor_lt64 f0 f1) f2) f3

/-! ## Association-list lemmas -/

theorem afind?_append {κ α : Type} [DecidableEq κ] (l l' : List (κ × α)) (k : κ) :
    afind? (l ++ l') k = ((afind? l k).orElse (fun _ => afind? l' k)) := by
  induction l with
  | nil => simp [afind?]
  | cons p rest ih =>
    obtain ⟨k1, v1⟩ := p
    by_cases h : k1 = k <;> simp [afind?, h, ih]

theorem afind?_amodify_self {κ α : Type} [DecidableEq κ] (l : List (κ × α)) (k : κ)
    (f : α → α) : afind? (amodify l k f) k = (afind? l k).map f := by
  induction l with
  | nil => simp [afind?, amodify]
  | cons p rest ih =>
    obtain ⟨k1, v1⟩ := p
    by_cases h : k1 = k <;> simp [afind?, amodify, h, ih]

theorem afind?_amodify_ne {κ α : Type} [DecidableEq κ] (l : List (κ × α)) {k k' : κ}
    (f : α → α) (h : k' ≠ k) : afind? (amodify l k f) k' = afind? l k' := by
  induction l with
  | nil => simp [afind?, amodify]
  | cons p rest ih =>
    obtain ⟨k1, v1⟩ := p
    simp only [amodify, afind?]
    by_cases h2 : k1 = k'
    · have hk : ¬ k1 = k := by rw [h2]; exact h
      rw [if_pos h2, if_pos h2, if_neg hk]
    · rw [if_neg h2, if_neg h2]
      exact ih

theorem afind?_ainsert_absent {κ α : Type} [DecidableEq κ] {l : List (κ × α)} {k : κ}
    (v : α) (h : afind? l k = none) : afind? (ainsert l k v) k = some v := by
  simp [ainsert, h, afind?_append, afind?]

theorem ainsert_present {κ α : Type} [DecidableEq κ] {l : List (κ × α)} {k : κ} (v : α)
    (h : (afind? l k).isSome) : ainsert l k v = l := by
  simp [ainsert, h]

theorem afind?_ainsert_ne {κ α : Type} [DecidableEq κ] (l : List (κ × α)) {k k' : κ}
    (v : α) (h : k' ≠ k) : afind? (ainsert l k v) k' = afind? l k' := by
  by_cases hp : (afind? l k).isSome
  · simp [ainsert, hp]
  · have hkk : ¬ k = k' := fun hh => h hh.symm
    simp only [ainsert, hp, if_false, Bool.false_eq_true]
    rw [afind?_append]
    cases hf : afind? l k' <;> simp [hf, afind?, hkk]

/-! ## C1 — `resync_from_stack` leaves the scope equal to the given list -/

theorem take_lcp_append_drop : ∀ (s a : List Nat),
    s.take (commonPrefixLen s a) ++ a.drop (commonPrefixLen s a) = a := by
  intro s
  induction s with
  | nil => intro a; simp [commonPrefixLen]
  | cons x s ih =>
    intro a
    cases a with
    | nil => simp [commonPrefixLen]
    | cons y a =>
      by_cases h : x = y
      · subst h
        simp [commonPrefixLen, ih]
      · simp [commonPrefixLen, h]

/-- Rust `PollScope::resync` makes the scope equal to the supplied stack. -/
theorem PollScope.resync_stack (s : PollScope) (actual : List Nat) :
    (s.resync actual).stack = actual := by
  simp [PollScope.resync, take_lcp_append_drop]

theorem updateScope_get_self (m : ThreadPollScopeManager) (tid : Int)
    (f : PollScope → PollScope) :
    (m.updateScope tid f).get tid = some (f (((m.get tid)).getD PollScope.new)) := by
  unfold ThreadPollScopeManager.updateScope ThreadPollScopeManager.get
  cases h : afind? m.scopes tid with
  | some s => simp [h, afind?_amodify_self]
  | none => simp [h, afind?_append, afind?]

/-- C1: for every thread id and task list `S`, `resync_from_stack(tid, S)`
leaves the thread's poll-scope stack equal to `S`: truncating to the longest
common prefix and appending the remainder of `S` reconstructs `S` exactly. -/
theorem C1_resync_from_stack_exact (st : AsyncTracker) (tid : Int) (S : List Nat) :
    (st.resync_from_stack tid S).scopeStack tid = S := by
  unfold AsyncTracker.resync_from_stack AsyncTracker.scopeStack
  simp [updateScope_get_self, PollScope.resync_stack]

/-! ## C3 — callsite identity: deterministic, but only 64 bits of output -/

theorem optU32Bytes_lt (o : Option Nat) : ∀ b ∈ optU32Bytes o, b < 256 := by
  cases o with
  | none => simpa [optU32Bytes] using leBytes_lt 8 0
  | some x =>
    intro b hb
    rcases List.mem_append.mp hb with h | h
    · exact leBytes_lt 8 1 b h
    · exact leBytes_lt 4 x b h

theorem strBytes_lt (s : String) : ∀ b ∈ strBytes s, b < 256 := by
  intro b hb
  simp only [strBytes, List.mem_map] at hb
  obtain ⟨u, _, rfl⟩ := hb
  exact u.toNat_lt

theorem optStrBytes_lt (o : Option String) : ∀ b ∈ optStrBytes o, b < 256 := by
  cases o with
  | none => simpa [optStrBytes] using leBytes_lt 8 0
  | some s =>
    intro b hb
    simp only [optStrBytes, List.append_assoc, List.mem_append] at hb
    rcases hb with h | h | h
    · exact leBytes_lt 8 1 b h
    · exact strBytes_lt s b h
    · simp only [List.mem_singleton] at h; omega

theorem callsite_hashStream_lt (c : Callsite) : ∀ b ∈ c.hashStream, b < 256 := by
  intro b hb
  simp only [Callsite.hashStream, List.append_assoc, List.mem_append] at hb
  rcases hb with h | h | h | h
  · exact leBytes_lt 8 c.parent b h
  · exact optU32Bytes_lt c.suspend_idx b h
  · exact optStrBytes_lt c.file b h
  · exact optU32Bytes_lt c.line b h

/-- C3 counterexample: the claim promises a hash with at least 96 bits of
output, but `compute_hash` returns `DefaultHasher::finish() as u128` — a
`u64` zero-extended — so a callsite id's upper 64 bits are always zero; shown
here at the concrete callsite `(0, None, None, None)` (the general bound, for
every callsite, is part of the amended theorem). -/
theorem C3_counterexample_only_64_bits :
    (Callsite.mk 0 none none none).compute_id < 2 ^ 64 ∧
      (Callsite.mk 0 none none none).compute_id >>> 64 = 0 := by
  have h := sip13_lt (callsite_hashStream_lt (Callsite.mk 0 none none none))
  refine ⟨h, ?_⟩
  rw [Nat.shiftRight_eq_div_pow]
  exact Nat.div_eq_of_lt h

theorem ainsert_idem {κ α : Type} [DecidableEq κ] (l : List (κ × α)) (k : κ) (v : α) :
    ainsert (ainsert l k v) k v = ainsert l k v := by
  by_cases hp : (afind? l k).isSome
  · rw [ainsert_present v hp, ainsert_present v hp]
  · have hnone : afind? l k = none := by
      cases h : afind? l k
      · rfl
      · rw [h] at hp; simp at hp
    have : afind? (ainsert l k v) k = some v := afind?_ainsert_absent v hnone
    exact ainsert_present v (by rw [this]; rfl)

/-- C3 (amended): a callsite's id is a deterministic function of
`(parent, suspend_idx, file, line)` — equal inputs give equal ids — and
interning the same callsite twice returns the same id without changing the
table; the hash, however, has 64 bits of output (zero-extended to the
128-bit id type), not 96. -/
theorem C3_callsite_id_deterministic (t : CallsiteTracker) (c c' : Callsite)
    (hp : c'.parent = c.parent) (hs : c'.suspend_idx = c.suspend_idx)
    (hf : c'.file = c.file) (hl : c'.line = c.line) :
    c.compute_id < 2 ^ 64 ∧ c'.compute_id = c.compute_id ∧
      ((t.register c).2.register c) = ((t.register c).1, (t.register c).2) := by
  have hcc : c' = c := by
    cases c; cases c'
    simp_all
  refine ⟨sip13_lt (callsite_hashStream_lt c), by rw [hcc], ?_⟩
  simp only [CallsiteTracker.register]
  rw [ainsert_idem]

/-- Witness for C3 (amended) at a concrete callsite. -/
theorem C3_callsite_id_deterministic_witness :
    (Callsite.mk 0 none none none).compute_id < 2 ^ 64 ∧
      (Callsite.mk 0 none none none).compute_id = (Callsite.mk 0 none none none).compute_id ∧
      ((CallsiteTracker.mk []).register (Callsite.mk 0 none none none)).2.register
          (Callsite.mk 0 none none none) =
        (((CallsiteTracker.mk []).register (Callsite.mk 0 none none none)).1,
          ((CallsiteTracker.mk []).register (Callsite.mk 0 none none none)).2) :=
  C3_callsite_id_deterministic (CallsiteTracker.mk []) (Callsite.mk 0 none none none)
    (Callsite.mk 0 none none none) rfl rfl rfl rfl

/-! ## C9 — install-then-remove restores memory bit-identically -/

theorem afind?_aset_self {κ α : Type} [DecidableEq κ] (l : List (κ × α)) (k : κ) (v : α) :
    afind? (aset l k v) k = some v := by
  by_cases hp : (afind? l k).isSome
  · cases h : afind? l k with
    | none => rw [h] at hp; simp at hp
    | some w => simp [aset, hp, afind?_amodify_self, h]
  · simp [aset, hp, afind?_append, afind?]
    cases h : afind? l k with
    | none => simp
    | some w => rw [h] at hp; simp at hp

/-- C9: installing a breakpoint at a mapped address saves the original byte
and writes the trap opcode; removing it restores the byte, leaving every
memory cell equal to its pre-install value. -/
theorem C9_install_remove_round_trip (mgr : BreakpointManager) (mem : Mem) (addr b : Nat)
    (h : mem addr = some b) :
    ∃ id mgr1 mem1 mgr2 mem2,
      mgr.add_and_enable addr mem = .ok (id, mgr1, mem1) ∧
      mem1 addr = some INT3_OPCODE ∧
      mgr1.remove_and_disable id mem1 = .ok (mgr2, mem2) ∧
      mem2 addr = some b ∧
      ∀ a, mem2 a = mem a := by
  set bp : Breakpoint :=
    { id := mgr.next_id, address := addr, enabled := true, bp_type := BreakpointType.User }
  set sw : SoftwareBreakpoint := { address := addr, original_byte := b, enabled := true }
  set mem1 : Mem := (fun a => if a = addr then some INT3_OPCODE else mem a)
  set mgr1 : BreakpointManager :=
    ⟨aset mgr.breakpoints mgr.next_id (bp, sw), mgr.next_id + 1⟩
  set mem2 : Mem := (fun a => if a = addr then some b else mem1 a)
  set mgr2 : BreakpointManager := ⟨aremove mgr1.breakpoints mgr.next_id, mgr.next_id + 1⟩
  have hadd : mgr.add_and_enable addr mem = .ok (mgr.next_id, mgr1, mem1) := by
    simp [BreakpointManager.add_and_enable, BreakpointManager.add_and_enable_with_type,
      SoftwareBreakpoint.new, SoftwareBreakpoint.enable, Mem.read_u8, Mem.write_u8, h,
      bp, sw, mem1, mgr1]
  have hfind : afind? mgr1.breakpoints mgr.next_id = some (bp, sw) := by
    simp [mgr1, afind?_aset_self]
  have hrem : mgr1.remove_and_disable mgr.next_id mem1 = .ok (mgr2, mem2) := by
    simp [BreakpointManager.remove_and_disable, hfind, SoftwareBreakpoint.disable,
      Mem.write_u8, sw, mem1, mem2, mgr2]
  refine ⟨mgr.next_id, mgr1, mem1, mgr2, mem2, hadd, by simp [mem1], hrem, by simp [mem2, mem1], ?_⟩
  intro a
  by_cases ha : a = addr <;> simp [mem2, mem1, ha, h]

/-- Witness for C9 at the fixture memory. -/
theorem C9_install_remove_round_trip_witness :
    demoMem 100 = some 144 ∧
    (∃ id mgr1 mem1 mgr2 mem2,
      BreakpointManager.new.add_and_enable 100 demoMem = .ok (id, mgr1, mem1) ∧
      mem1 100 = some INT3_OPCODE ∧
      mgr1.remove_and_disable id mem1 = .ok (mgr2, mem2) ∧
      mem2 100 = some 144 ∧
      ∀ a, mem2 a = demoMem a) :=
  ⟨rfl, C9_install_remove_round_trip BreakpointManager.new demoMem 100 144 rfl⟩

/-- C4 counterexample: installing twice at the same address leaves TWO
enabled records at that address — the invariant "at most one enabled
breakpoint per address" fails — and the second record's saved original byte
is the trap opcode `0xCC`, not the pre-breakpoint byte, so the re-install is
not idempotent either. -/
theorem C4_counterexample_double_install :
    demoDoubleMgr.enabledCountAt 100 = 2 ∧
    (afind? demoDoubleMgr.breakpoints 2).map (fun p => p.2.original_byte) =
      some INT3_OPCODE := by
  decide

theorem enabledCountAt_append (l l' : List (Nat × (Breakpoint × SoftwareBreakpoint)))
    (n n' n'' : Nat) (addr : Nat) :
    (BreakpointManager.mk (l ++ l') n).enabledCountAt addr =
      (BreakpointManager.mk l n').enabledCountAt addr +
        (BreakpointManager.mk l' n'').enabledCountAt addr := by
  simp [BreakpointManager.enabledCountAt, List.filter_append]

/-- C4 (amended): `add_and_enable_with_type` performs no per-address
deduplication.  From any manager state whose next two ids are unused,
installing twice at a mapped address succeeds twice, hands out consecutive
ids, adds two enabled records at that address (so the address's enabled
count grows by two), saves the true byte in the first record, and saves
the trap opcode `0xCC` as the second record's "original" byte. -/
theorem C4_no_dedup_on_reinstall (mgr : BreakpointManager) (mem : Mem) (addr b : Nat)
    (t1 t2 : BreakpointType)
    (h : mem addr = some b)
    (hf1 : afind? mgr.breakpoints mgr.next_id = none)
    (hf2 : afind? mgr.breakpoints (mgr.next_id + 1) = none) :
    ∃ id1 mgr1 mem1 id2 mgr2 mem2,
      mgr.add_and_enable_with_type addr mem t1 = .ok (id1, mgr1, mem1) ∧
      mgr1.add_and_enable_with_type addr mem1 t2 = .ok (id2, mgr2, mem2) ∧
      id2 = id1 + 1 ∧
      (afind? mgr2.breakpoints id1).map (fun p => p.2.original_byte) = some b ∧
      (afind? mgr2.breakpoints id2).map (fun p => p.2.original_byte) = some INT3_OPCODE ∧
      (afind? mgr2.breakpoints id1).map (fun p => (p.1.enabled, p.1.address)) =
        some (true, addr) ∧
      (afind? mgr2.breakpoints id2).map (fun p => (p.1.enabled, p.1.address)) =
        some (true, addr) ∧
      mgr2.enabledCountAt addr = mgr.enabledCountAt addr + 2 := by
  set bp1 : Breakpoint :=
    { id := mgr.next_id, address := addr, enabled := true, bp_type := t1 }
  set sw1 : SoftwareBreakpoint := { address := addr, original_byte := b, enabled := true }
  set mem1 : Mem := (fun a => if a = addr then some INT3_OPCODE else mem a)
  have hset1 : aset mgr.breakpoints mgr.next_id (bp1, sw1) =
      mgr.breakpoints ++ [(mgr.next_id, (bp1, sw1))] := by
    simp [aset, hf1]
  set mgr1 : BreakpointManager :=
    ⟨mgr.breakpoints ++ [(mgr.next_id, (bp1, sw1))], mgr.next_id + 1⟩
  have hadd1 : mgr.add_and_enable_with_type addr mem t1 = .ok (mgr.next_id, mgr1, mem1) := by
    simp [BreakpointManager.add_and_enable_with_type, SoftwareBreakpoint.new,
      SoftwareBreakpoint.enable, Mem.read_u8, Mem.write_u8, h, hset1, mgr1, mem1]
  set bp2 : Breakpoint :=
    { id := mgr.next_id + 1, address := addr, enabled := true, bp_type := t2 }
  set sw2 : SoftwareBreakpoint :=
    { address := addr, original_byte := INT3_OPCODE, enabled := true }
  set mem2 : Mem := (fun a => if a = addr then some INT3_OPCODE else mem1 a)
  have hf2' : afind? mgr1.breakpoints (mgr.next_id + 1) = none := by
    have : ¬ mgr.next_id = mgr.next_id + 1 := by omega
    simp [mgr1, afind?_append, hf2, afind?, this]
  have hset2 : aset mgr1.breakpoints (mgr.next_id + 1) (bp2, sw2) =
      mgr1.breakpoints ++ [(mgr.next_id + 1, (bp2, sw2))] := by
    simp [aset, hf2']
  set mgr2 : BreakpointManager :=
    ⟨mgr1.breakpoints ++ [(mgr.next_id + 1, (bp2, sw2))], mgr.next_id + 2⟩
  have hadd2 : mgr1.add_and_enable_with_type addr mem1 t2 =
      .ok (mgr.next_id + 1, mgr2, mem2) := by
    have hm1 : mem1 addr = some INT3_OPCODE := by simp [mem1]
    simp only [BreakpointManager.add_and_enable_with_type, SoftwareBreakpoint.new,
      SoftwareBreakpoint.enable, Mem.read_u8, Mem.write_u8, hm1]
    simp [hset2, mgr2, mem2, mgr1, bp2, sw2]
  have hfind1 : afind? mgr2.breakpoints mgr.next_id = some (bp1, sw1) := by
    have : ¬ mgr.next_id = mgr.next_id + 1 := by omega
    simp [mgr2, mgr1, afind?_append, hf1, afind?]
  have hfind2 : afind? mgr2.breakpoints (mgr.next_id + 1) = some (bp2, sw2) := by
    simp [mgr2, mgr1, afind?_append, hf2, afind?]
  refine ⟨mgr.next_id, mgr1, mem1, mgr.next_id + 1, mgr2, mem2, hadd1, hadd2, rfl,
    ?_, ?_, ?_, ?_, ?_⟩
  · rw [hfind1]; rfl
  · rw [hfind2]; rfl
  · rw [hfind1]; rfl
  · rw [hfind2]; rfl
  · have hsplit : mgr2.breakpoints =
        mgr.breakpoints ++ [(mgr.next_id, (bp1, sw1)), (mgr.next_id + 1, (bp2, sw2))] := by
      simp [mgr2, mgr1]
    have htwo : (BreakpointManager.mk
        [(mgr.next_id, (bp1, sw1)), (mgr.next_id + 1, (bp2, sw2))] 0).enabledCountAt addr = 2 := by
      simp [BreakpointManager.enabledCountAt, bp1, bp2]
    rw [show mgr2.enabledCountAt addr = (BreakpointManager.mk
        (mgr.breakpoints ++ [(mgr.next_id, (bp1, sw1)), (mgr.next_id + 1, (bp2, sw2))])
          0).enabledCountAt addr from by simp [BreakpointManager.enabledCountAt, hsplit],
      enabledCountAt_append mgr.breakpoints _ 0 0 0 addr, htwo]
    rfl

/-- Witness for C4 (amended): a fresh manager and the fixture memory. -/
theorem C4_no_dedup_on_reinstall_witness :
    (demoMem 100 = some 144 ∧
      afind? BreakpointManager.new.breakpoints BreakpointManager.new.next_id = none ∧
      afind? BreakpointManager.new.breakpoints (BreakpointManager.new.next_id + 1) = none) ∧
    (∃ id1 mgr1 mem1 id2 mgr2 mem2,
      BreakpointManager.new.add_and_enable_with_type 100 demoMem BreakpointType.User =
        .ok (id1, mgr1, mem1) ∧
      mgr1.add_and_enable_with_type 100 mem1 BreakpointType.User = .ok (id2, mgr2, mem2) ∧
      id2 = id1 + 1 ∧
      (afind? mgr2.breakpoints id1).map (fun p => p.2.original_byte) = some 144 ∧
      (afind? mgr2.breakpoints id2).map (fun p => p.2.original_byte) = some INT3_OPCODE ∧
      (afind? mgr2.breakpoints id1).map (fun p => (p.1.enabled, p.1.address)) =
        some (true, 100) ∧
      (afind? mgr2.breakpoints id2).map (fun p => (p.1.enabled, p.1.address)) =
        some (true, 100) ∧
      mgr2.enabledCountAt 100 = BreakpointManager.new.enabledCountAt 100 + 2) :=
  ⟨⟨rfl, rfl, rfl⟩,
    C4_no_dedup_on_reinstall BreakpointManager.new demoMem 100 144
      BreakpointType.User BreakpointType.User rfl rfl rfl⟩

/-- C6: `reverse_resolve` on an offset past the end of the last (sized)
symbol returns that symbol instead of `none`.  The second `else if addr >=
sym.address` branch fires even when the symbol records a size and the offset
lies beyond `address + size`, contradicting the inline comment (nearest-lower
is meant for symbols without size information) and the specified boundary
behaviour. -/
theorem C6_past_end_returns_last_symbol :
    demoResolver.reverse_resolve 8192 = some (DwSymbol.mk "main" "main" 4096 256) ∧
    4096 + 256 ≤ 8192 := by
  decide

/-- C5 counterexample: a unit whose line program has no qualifying row makes
`find_first_line_in_range(5, 10)` return `5` — the documented fallback to
`start_addr` itself — which is not strictly greater than `lo` and is not the
address of any `is_stmt` row. -/
theorem C5_counterexample_fallback_returns_lo :
    find_first_line_in_range [some []] 5 10 = some 5 ∧ ¬ (5 < 5) := by
  decide

/-- C5 (amended): when `find_first_line_in_range(lo, hi)` returns an address,
it is either the `lo` fallback itself, or the address of a line-table row
that lies strictly between `lo` and `hi`, is an `is_stmt` row, is not an
end-of-sequence marker, and carries a positive line number. -/
theorem C5_first_line_in_open_range (units : List (Option (List LineRow))) (lo hi a : Nat)
    (h : find_first_line_in_range units lo hi = some a) :
    a = lo ∨ (lo < a ∧ a < hi ∧ ∃ rows, some rows ∈ units ∧ ∃ r ∈ rows,
      r.address = a ∧ r.is_stmt = true ∧ r.end_sequence = false ∧
        ∃ l, r.line = some l ∧ 0 < l) := by
  induction units with
  | nil => simp [find_first_line_in_range] at h
  | cons u rest ih =>
    cases u with
    | none =>
      rcases ih (by simpa [find_first_line_in_range] using h) with hl | ⟨h1, h2, rows, hm, hr⟩
      · exact Or.inl hl
      · exact Or.inr ⟨h1, h2, rows, by simp [hm], hr⟩
    | some rows =>
      simp only [find_first_line_in_range, Option.some_inj] at h
      cases hf : findFirstLineInRows rows lo hi with
      | none => rw [hf] at h; exact Or.inl (by simp at h; omega)
      | some addr =>
        rw [hf] at h
        simp only [Option.getD_some] at h
        subst h
        simp only [findFirstLineInRows, Option.map_eq_some'] at hf
        obtain ⟨r, hfind, rfl⟩ := hf
        have hmem := List.mem_of_find?_eq_some hfind
        have hq := List.find?_some hfind
        simp only [rowQualifies, Bool.and_eq_true, decide_eq_true_eq, Bool.not_eq_true',
          decide_eq_false_iff_not] at hq
        obtain ⟨⟨⟨⟨⟨hle, hlt⟩, hes⟩, hline⟩, hstmt⟩, hne⟩ := hq
        refine Or.inr ⟨by omega, hlt, rows, by simp, r, hmem, rfl, hstmt, hes, ?_⟩
        cases hl : r.line with
        | none => rw [hl] at hline; simp at hline
        | some l =>
          rw [hl] at hline
          simp only [decide_eq_true_eq] at hline
          exact ⟨l, rfl, hline⟩

/-- Witness for C5 (amended): the qualifying row at 6 is found in (5, 10). -/
theorem C5_first_line_in_open_range_witness :
    find_first_line_in_range [some demoRows] 5 10 = some 6 ∧
    (6 = 5 ∨ (5 < 6 ∧ 6 < 10 ∧ ∃ rows, some rows ∈ [some demoRows] ∧ ∃ r ∈ rows,
      r.address = 6 ∧ r.is_stmt = true ∧ r.end_sequence = false ∧
        ∃ l, r.line = some l ∧ 0 < l)) :=
  ⟨by decide, C5_first_line_in_open_range [some demoRows] 5 10 6 (by decide)⟩

/-! ## C8 — empty-scope exits succeed and change nothing; no tracker errors -/

theorem on_poll_exit_ok (st : AsyncTracker) (tid : Int) (rip : Nat) (is_ready : Bool) :
    ∃ st', st.on_poll_exit tid rip is_ready = .ok st' := by
  unfold AsyncTracker.on_poll_exit
  cases hpop : st.scope_manager.popScope tid with
  | mk child sm1 =>
    cases child with
    | none => exact ⟨_, rfl⟩
    | some c =>
      cases is_ready with
      | false => exact ⟨_, rfl⟩
      | true =>
        simp only [AsyncTracker.find_parent_task, AsyncTracker.scan_parent_genfuture]
        exact ⟨_, rfl⟩

/-- C8: an `on_poll_exit` on a thread whose scope stack is empty returns
`Ok`, leaves the task, edge, and callsite tables untouched, and leaves the
scope empty (the needed resync is signalled by that emptiness, which the
orchestrator inspects); more generally, `on_poll_entry`, `on_poll_exit` and
`resync_from_stack` never return an error. -/
theorem C8_empty_scope_exit (st : AsyncTracker) (tid : Int) (rip : Nat) (is_ready : Bool)
    (h : st.scopeStack tid = []) :
    (∃ st', st.on_poll_exit tid rip is_ready = .ok st' ∧
      st'.task_tracker = st.task_tracker ∧
      st'.edge_tracker = st.edge_tracker ∧
      st'.callsite_tracker = st.callsite_tracker ∧
      st'.scopeStack tid = []) ∧
    (∀ (st2 : AsyncTracker) (tid2 : Int) (c r n : Nat) (p d : Option Nat)
        (f : Option String) (b : Bool),
      (∃ s1, st2.on_poll_entry tid2 c r p d f n = .ok s1) ∧
      (∃ s2, st2.on_poll_exit tid2 r b = .ok s2)) := by
  constructor
  · cases hg : afind? st.scope_manager.scopes tid with
    | none =>
      have hpop : st.scope_manager.popScope tid =
          (none, ⟨st.scope_manager.scopes ++ [(tid, PollScope.mk [])]⟩) := by
        unfold ThreadPollScopeManager.popScope
        simp [hg, PollScope.pop, PollScope.new]
      refine ⟨{ st with scope_manager :=
          ⟨st.scope_manager.scopes ++ [(tid, PollScope.mk [])]⟩ }, ?_, rfl, rfl, rfl, ?_⟩
      · unfold AsyncTracker.on_poll_exit
        rw [hpop]
      · simp [AsyncTracker.scopeStack, ThreadPollScopeManager.get, afind?_append, hg, afind?]
    | some s =>
      have hstack : s.stack = [] := by
        simp [AsyncTracker.scopeStack, ThreadPollScopeManager.get, hg] at h
        exact h
      have hpop : st.scope_manager.popScope tid =
          (none, ⟨amodify st.scope_manager.scopes tid (fun _ => PollScope.mk [])⟩) := by
        unfold ThreadPollScopeManager.popScope
        simp [hg, PollScope.pop, hstack]
      refine ⟨{ st with scope_manager :=
          ⟨amodify st.scope_manager.scopes tid (fun _ => PollScope.mk [])⟩ }, ?_, rfl, rfl, rfl, ?_⟩
      · unfold AsyncTracker.on_poll_exit
        rw [hpop]
      · simp [AsyncTracker.scopeStack, ThreadPollScopeManager.get, afind?_amodify_self, hg]
  · intro st2 tid2 c r n p d f b
    exact ⟨⟨_, rfl⟩, on_poll_exit_ok st2 tid2 r b⟩

/-- Witness for C8: a fresh tracker has an empty scope for thread 1. -/
theorem C8_empty_scope_exit_witness :
    AsyncTracker.new.scopeStack 1 = [] ∧
    ((∃ st', AsyncTracker.new.on_poll_exit 1 0 true = .ok st' ∧
      st'.task_tracker = AsyncTracker.new.task_tracker ∧
      st'.edge_tracker = AsyncTracker.new.edge_tracker ∧
      st'.callsite_tracker = AsyncTracker.new.callsite_tracker ∧
      st'.scopeStack 1 = []) ∧
    (∀ (st2 : AsyncTracker) (tid2 : Int) (c r n : Nat) (p d : Option Nat)
        (f : Option String) (b : Bool),
      (∃ s1, st2.on_poll_entry tid2 c r p d f n = .ok s1) ∧
      (∃ s2, st2.on_poll_exit tid2 r b = .ok s2))) :=
  ⟨rfl, C8_empty_scope_exit AsyncTracker.new 1 0 true rfl⟩

/-! ## C10 — re-polling a known task: `last_seen` moves, `first_seen` and the
name do not -/

/-- C10: a second `on_poll_entry` for an already-registered task sets
`last_seen` to the current instant, leaves `first_seen` untouched, and keeps
an already-set type name (a later entry's function name never overwrites
it). -/
theorem C10_repoll_updates_last_seen_only (st : AsyncTracker) (tid : Int)
    (child rip now : Nat) (p d : Option Nat) (fn : Option String) (t : TaskInfo)
    (h : st.task_tracker.get child = some t) :
    ∃ st', st.on_poll_entry tid child rip p d fn now = .ok st' ∧
      (st'.task_tracker.get child).map TaskInfo.first_seen = some t.first_seen ∧
      (st'.task_tracker.get child).map TaskInfo.last_seen = some now ∧
      (∀ n, t.type_name = some n →
        (st'.task_tracker.get child).map TaskInfo.type_name = some (some n)) := by
  have hh : afind? st.task_tracker.tasks child = some t := h
  refine ⟨_, rfl, ?_⟩
  simp only [AsyncTracker.on_poll_entry_run, TaskTracker.get, hh]
  cases hpar : p.orElse (fun _ => (st.scope_manager.get tid).bind PollScope.top) with
  | some parent_id =>
    simp only [hpar]
    have hget : ∀ (F : TaskInfo → TaskInfo),
        afind? (amodify st.task_tracker.tasks child F) child = some (F t) := by
      intro F
      rw [afind?_amodify_self, hh]
      rfl
    refine ⟨?_, ?_, ?_⟩
    · show (afind? (amodify st.task_tracker.tasks child _) child).map _ = _
      rw [hget]
      cases d <;> by_cases hc : t.type_name = none ∧ fn.isSome <;>
        simp [TaskInfo.touch, hc]
    · show (afind? (amodify st.task_tracker.tasks child _) child).map _ = _
      rw [hget]
      cases d <;> by_cases hc : t.type_name = none ∧ fn.isSome <;>
        simp [TaskInfo.touch, hc]
    · intro n hn
      show (afind? (amodify st.task_tracker.tasks child _) child).map _ = _
      rw [hget]
      have hc : ¬ (t.type_name = none ∧ fn.isSome) := by
        rintro ⟨h1, _⟩; rw [hn] at h1; exact Option.noConfusion h1
      cases d <;> simp [TaskInfo.touch, hc, hn]
  | none =>
    simp only [hpar]
    have hget : ∀ (F G : TaskInfo → TaskInfo),
        afind? (amodify (amodify st.task_tracker.tasks child F) child G) child =
          some (G (F t)) := by
      intro F G
      rw [afind?_amodify_self, afind?_amodify_self, hh]
      rfl
    refine ⟨?_, ?_, ?_⟩
    · show (afind? (amodify (amodify st.task_tracker.tasks child _) child _) child).map _ = _
      rw [hget]
      cases d <;> by_cases hc : t.type_name = none ∧ fn.isSome <;>
        simp [TaskInfo.touch, hc]
    · show (afind? (amodify (amodify st.task_tracker.tasks child _) child _) child).map _ = _
      rw [hget]
      cases d <;> by_cases hc : t.type_name = none ∧ fn.isSome <;>
        simp [TaskInfo.touch, hc]
    · intro n hn
      show (afind? (amodify (amodify st.task_tracker.tasks child _) child _) child).map _ = _
      rw [hget]
      have hc : ¬ (t.type_name = none ∧ fn.isSome) := by
        rintro ⟨h1, _⟩; rw [hn] at h1; exact Option.noConfusion h1
      cases d <;> simp [TaskInfo.touch, hc, hn]

/-- Witness for C10: re-polling task 7 at instant 3. -/
theorem C10_repoll_updates_last_seen_only_witness :
    demoTracker.task_tracker.get 7 = some demoTask ∧
    (∃ st', demoTracker.on_poll_entry 1 7 5 none none none 3 = .ok st' ∧
      (st'.task_tracker.get 7).map TaskInfo.first_seen = some demoTask.first_seen ∧
      (st'.task_tracker.get 7).map TaskInfo.last_seen = some 3 ∧
      (∀ n, demoTask.type_name = some n →
        (st'.task_tracker.get 7).map TaskInfo.type_name = some (some n))) :=
  ⟨rfl, C10_repoll_updates_last_seen_only demoTracker 1 7 5 3 none none none demoTask rfl⟩

/-! ## C2 — exit pops the scope and `Ready` completes the popped child's
edges and task -/

theorem afind?_mem {κ α : Type} [DecidableEq κ] {es : List (κ × α)} {k : κ} {e : α}
    (h : afind? es k = some e) : (k, e) ∈ es := by
  induction es with
  | nil => simp [afind?] at h
  | cons p rest ih =>
    obtain ⟨k1, v1⟩ := p
    simp only [afind?] at h
    by_cases hk : k1 = k
    · rw [if_pos hk] at h
      injection h with h2
      subst hk
      subst h2
      exact List.mem_cons_self _ _
    · rw [if_neg hk] at h
      exact List.mem_cons_of_mem _ (ih h)

theorem nodup_keys_unique {κ α : Type} [DecidableEq κ] {es : List (κ × α)}
    (h : (es.map Prod.fst).Nodup) {k : κ} {e e' : α}
    (h1 : (k, e) ∈ es) (h2 : (k, e') ∈ es) : e = e' := by
  induction es with
  | nil => simp at h1
  | cons p rest ih =>
    simp only [List.map_cons, List.nodup_cons] at h
    obtain ⟨hnot, hrest⟩ := h
    rcases List.mem_cons.mp h1 with rfl | h1'
    · rcases List.mem_cons.mp h2 with he | h2'
      · exact (congrArg Prod.snd he).symm
      · exact absurd (List.mem_map_of_mem Prod.fst h2') (by simpa using hnot)
    · rcases List.mem_cons.mp h2 with rfl | h2'
      · exact absurd (List.mem_map_of_mem Prod.fst h1') (by simpa using hnot)
      · exact ih hrest h1' h2'

theorem mark_fold_edges (et : EdgeTracker) (ids : List Nat) :
    (ids.foldl (fun (et : EdgeTracker) id => et.mark_completed id) et).edges =
      ids.foldl (fun es id => amodify es id (fun e => { e with completed := true })) et.edges := by
  induction ids generalizing et with
  | nil => rfl
  | cons i ids ih =>
    simp only [List.foldl_cons, EdgeTracker.mark_completed]
    exact ih _

theorem afind?_mark_fold (l : List (Nat × Edge)) (ids : List Nat) (k : Nat) :
    afind? (ids.foldl (fun es id => amodify es id (fun e => { e with completed := true })) l) k =
      if k ∈ ids then (afind? l k).map (fun e => { e with completed := true })
      else afind? l k := by
  induction ids generalizing l with
  | nil => simp
  | cons i ids ih =>
    simp only [List.foldl_cons]
    rw [ih]
    by_cases hk : k = i
    · subst hk
      by_cases hm : k ∈ ids
      · simp only [hm, if_true, List.mem_cons, true_or, afind?_amodify_self]
        cases hfe : afind? l k <;> simp
      · simp only [hm, if_false, List.mem_cons, true_or, if_true, afind?_amodify_self]
    · rw [afind?_amodify_ne _ _ hk]
      by_cases hm : k ∈ ids
      · simp [hm, hk]
      · simp [hm, hk]

/-- C2: with a non-empty scope `l ++ [x]` for `tid`, `on_poll_exit` pops `x`;
on `Ready` every stored edge whose `(parent, child)` equals (the scope top
after the pop, `x`) is marked completed (all other edges unchanged) and task
`x` is marked completed; on `Pending` no table changes at all.  The
well-formedness hypotheses state what the `HashMap` guarantees in the source:
keys are unique, and every edge is stored under its own `compute_id`. -/
theorem C2_on_poll_exit_ready_completes (st : AsyncTracker) (tid : Int) (rip : Nat)
    (is_ready : Bool) (l : List Nat) (x : Nat)
    (hN : (st.edge_tracker.edges.map Prod.fst).Nodup)
    (hK : ∀ p ∈ st.edge_tracker.edges, p.1 = p.2.compute_id)
    (hscope : st.scopeStack tid = l ++ [x]) :
    ∃ st', st.on_poll_exit tid rip is_ready = .ok st' ∧
      st'.scopeStack tid = l ∧
      st'.callsite_tracker = st.callsite_tracker ∧
      (is_ready = false →
        st'.task_tracker = st.task_tracker ∧ st'.edge_tracker = st.edge_tracker) ∧
      (is_ready = true →
        (∀ k e, afind? st.edge_tracker.edges k = some e →
          afind? st'.edge_tracker.edges k =
            some (if some e.parent = l.getLast? ∧ e.child = x
              then { e with completed := true } else e)) ∧
        st'.task_tracker.get x =
          (st.task_tracker.get x).map (fun t => { t with completed := true })) := by
  -- the thread's scope entry exists and carries l ++ [x]
  have hex : ∃ s, afind? st.scope_manager.scopes tid = some s ∧ s.stack = l ++ [x] := by
    cases hg : afind? st.scope_manager.scopes tid with
    | none =>
      simp [AsyncTracker.scopeStack, ThreadPollScopeManager.get, hg] at hscope
    | some s =>
      exact ⟨s, rfl, by
        simpa [AsyncTracker.scopeStack, ThreadPollScopeManager.get, hg] using hscope⟩
  obtain ⟨s, hg, hstack⟩ := hex
  have hpop : st.scope_manager.popScope tid =
      (some x, ⟨amodify st.scope_manager.scopes tid (fun _ => PollScope.mk l)⟩) := by
    unfold ThreadPollScopeManager.popScope
    simp [hg, PollScope.pop, hstack, List.getLast?_concat, List.dropLast_concat]
  have hget1 : afind? (amodify st.scope_manager.scopes tid (fun _ => PollScope.mk l)) tid =
      some (PollScope.mk l) := by
    rw [afind?_amodify_self, hg]
    rfl
  have hscope' : ∀ (tt : TaskTracker) (et : EdgeTracker) (ct : CallsiteTracker),
      (AsyncTracker.mk tt et ct
        ⟨amodify st.scope_manager.scopes tid (fun _ => PollScope.mk l)⟩).scopeStack tid = l := by
    intro tt et ct
    simp [AsyncTracker.scopeStack, ThreadPollScopeManager.get, hget1]
  unfold AsyncTracker.on_poll_exit
  rw [hpop]
  cases is_ready with
  | false =>
    exact ⟨_, rfl, hscope' _ _ _, rfl, fun _ => ⟨rfl, rfl⟩, fun hcon => by simp at hcon⟩
  | true =>
    simp only [AsyncTracker.find_parent_task, AsyncTracker.scan_parent_genfuture,
      Option.orElse, ThreadPollScopeManager.get, hget1, Option.bind, PollScope.top]
    cases hl : (PollScope.mk l).stack.getLast? with
    | none =>
      refine ⟨_, rfl, hscope' _ _ _, rfl, fun hcon => by simp at hcon, fun _ => ⟨?_, ?_⟩⟩
      · intro k e hfe
        have hne : ¬ (some e.parent = (none : Option Nat) ∧ e.child = x) := by
          rintro ⟨hc, -⟩
          exact Option.noConfusion hc
        rw [if_neg hne]
        exact hfe
      · simp [TaskTracker.get, afind?_amodify_self]
    | some parentId =>
      refine ⟨_, rfl, hscope' _ _ _, rfl, fun hcon => by simp at hcon, fun _ => ⟨?_, ?_⟩⟩
      · intro k e hfe
        have hl' : l.getLast? = some parentId := hl
        show afind? ((List.filterMap (fun p =>
            if p.2.parent = parentId ∧ p.2.child = x then some p.2.compute_id else none)
            st.edge_tracker.edges).foldl
              (fun (et : EdgeTracker) id => et.mark_completed id) st.edge_tracker).edges k = _
        rw [mark_fold_edges, afind?_mark_fold]
        have hiff : (k ∈ st.edge_tracker.edges.filterMap (fun p =>
            if p.2.parent = parentId ∧ p.2.child = x then some p.2.compute_id else none)) ↔
            (e.parent = parentId ∧ e.child = x) := by
          constructor
          · intro hk
            obtain ⟨p, hp, hps⟩ := List.mem_filterMap.mp hk
            by_cases hc : p.2.parent = parentId ∧ p.2.child = x
            · rw [if_pos hc] at hps
              injection hps with hps
              have hp1 : p.1 = k := by rw [hK p hp, hps]
              have hpair : (k, p.2) ∈ st.edge_tracker.edges := by
                have hpk : p = (k, p.2) := by
                  cases p
                  simp only [Prod.mk.injEq, and_true]
                  exact hp1
                rw [← hpk]
                exact hp
              have hee : e = p.2 := nodup_keys_unique hN (afind?_mem hfe) hpair
              rw [hee]
              exact hc
            · rw [if_neg hc] at hps
              exact Option.noConfusion hps
          · intro hc
            refine List.mem_filterMap.mpr ⟨(k, e), afind?_mem hfe, ?_⟩
            rw [if_pos hc]
            rw [← hK (k, e) (afind?_mem hfe)]
        by_cases hc : e.parent = parentId ∧ e.child = x
        · rw [if_pos (hiff.mpr hc), hfe,
            if_pos (show some e.parent = some parentId ∧ e.child = x from ⟨by rw [hc.1], hc.2⟩)]
          rfl
        · rw [if_neg (fun hk => hc (hiff.mp hk)), hfe, if_neg (by
            rintro ⟨h1, h2⟩
            exact hc ⟨Option.some_inj.mp h1, h2⟩)]
      · simp [TaskTracker.get, afind?_amodify_self]

/-- Witness for C2: a `Ready` exit on thread 1 pops task 7. -/
theorem C2_on_poll_exit_ready_completes_witness :
    (List.map Prod.fst demoScopeTracker.edge_tracker.edges).Nodup ∧
    (∀ p ∈ demoScopeTracker.edge_tracker.edges, p.1 = p.2.compute_id) ∧
    demoScopeTracker.scopeStack 1 = [] ++ [7] ∧
    (∃ st', demoScopeTracker.on_poll_exit 1 0 true = .ok st' ∧
      st'.scopeStack 1 = [] ∧
      st'.callsite_tracker = demoScopeTracker.callsite_tracker ∧
      (true = false → st'.task_tracker = demoScopeTracker.task_tracker ∧
        st'.edge_tracker = demoScopeTracker.edge_tracker) ∧
      (true = true →
        (∀ k e, afind? demoScopeTracker.edge_tracker.edges k = some e →
          afind? st'.edge_tracker.edges k =
            some (if some e.parent = ([] : List Nat).getLast? ∧ e.child = 7
              then { e with completed := true } else e)) ∧
        st'.task_tracker.get 7 =
          (demoScopeTracker.task_tracker.get 7).map (fun t => { t with completed := true }))) :=
  ⟨by simp [demoScopeTracker, AsyncTracker.new, EdgeTracker.new],
    by intro p hp; simp [demoScopeTracker, AsyncTracker.new, EdgeTracker.new] at hp, rfl,
    C2_on_poll_exit_ready_completes demoScopeTracker 1 0 true [] 7
      (by simp [demoScopeTracker, AsyncTracker.new, EdgeTracker.new])
      (by intro p hp; simp [demoScopeTracker, AsyncTracker.new, EdgeTracker.new] at hp) rfl⟩

/-! ## C7 — when is `is_root` true? -/

theorem stepE_eq_ok (st : AsyncTracker) (ev : TrackerEv) :
    stepE st ev = .ok (stepT st ev) := by
  cases hev : stepE st ev with
  | ok st' => simp [stepT, hev]
  | error e =>
    exfalso
    cases ev with
    | pollEntry tid c rip p d f now =>
      simp [stepE, AsyncTracker.on_poll_entry] at hev
    | pollExit tid rip r =>
      obtain ⟨st', h⟩ := on_poll_exit_ok st tid rip r
      simp only [stepE] at hev
      rw [h] at hev
      exact Except.noConfusion hev
    | resyncStack tid a =>
      simp [stepE] at hev

theorem runE_eq_ok (st : AsyncTracker) (evs : List TrackerEv) :
    runE st evs = .ok (runT st evs) := by
  induction evs generalizing st with
  | nil => rfl
  | cons ev evs ih =>
    simp only [runE, stepE_eq_ok, runT, List.foldl_cons]
    exact ih (stepT st ev)

theorem isRoot_amodify_preserve (tasks : List (Nat × TaskInfo)) (key c : Nat)
    (g : TaskInfo → TaskInfo) (hg : ∀ t, (g t).is_root = t.is_root) :
    (afind? (amodify tasks key g) c).map TaskInfo.is_root =
      (afind? tasks c).map TaskInfo.is_root := by
  by_cases hc : c = key
  · subst hc
    rw [afind?_amodify_self]
    cases afind? tasks c <;> simp [hg]
  · rw [afind?_amodify_ne _ _ hc]

/-- Rust `on_poll_exit` never changes a task's root flag. -/
theorem isRoot?_exit (st : AsyncTracker) (tid : Int) (rip : Nat) (r : Bool) (c : Nat) :
    isRoot? (stepT st (.pollExit tid rip r)) c = isRoot? st c := by
  have hstep : stepT st (.pollExit tid rip r) =
      (match st.on_poll_exit tid rip r with
        | .ok st' => st'
        | .error _ => st) := by
    simp [stepT, stepE]
  rw [hstep]
  unfold AsyncTracker.on_poll_exit
  cases hpop : st.scope_manager.popScope tid with
  | mk child sm1 =>
    cases child with
    | none => simp [isRoot?, TaskTracker.get]
    | some child_id =>
      cases r with
      | false => simp [isRoot?, TaskTracker.get]
      | true =>
        simp only [AsyncTracker.find_parent_task, AsyncTracker.scan_parent_genfuture,
          Option.orElse]
        cases (sm1.get tid).bind PollScope.top with
        | none =>
          simp only [isRoot?, TaskTracker.get]
          exact isRoot_amodify_preserve _ _ _ _ (fun t => rfl)
        | some parent_id =>
          simp only [isRoot?, TaskTracker.get]
          exact isRoot_amodify_preserve _ _ _ _ (fun t => rfl)

/-- Rust `resync_from_stack` never changes a task's root flag. -/
theorem isRoot?_resync (st : AsyncTracker) (tid : Int) (a : List Nat) (c : Nat) :
    isRoot? (stepT st (.resyncStack tid a)) c = isRoot? st c := by
  simp [stepT, stepE, AsyncTracker.resync_from_stack, isRoot?, TaskTracker.get]

/-- What one `on_poll_entry` does to the root flag: for the entered task it
becomes `(old flag, false if new) OR (no parent was observed)`; other tasks
are untouched. -/
theorem isRoot?_entry (st : AsyncTracker) (tid : Int) (child rip : Nat)
    (p d : Option Nat) (fn : Option String) (now : Nat) (c : Nat) :
    isRoot? (stepT st (.pollEntry tid child rip p d fn now)) c =
      if child = c then
        some (((isRoot? st c).getD false) || (resolvedParent st tid p).isNone)
      else isRoot? st c := by
  have hstep : stepT st (.pollEntry tid child rip p d fn now) =
      st.on_poll_entry_run tid child rip p d fn now := by
    simp [stepT, stepE, AsyncTracker.on_poll_entry]
  rw [hstep]
  unfold AsyncTracker.on_poll_entry_run
  simp only [resolvedParent]
  cases hget : st.task_tracker.get child with
  | some t =>
    have hfind : afind? st.task_tracker.tasks child = some t := hget
    cases hpar : p.orElse fun _ => (st.scope_manager.get tid).bind PollScope.top with
    | some parent_id =>
      simp only [isRoot?, TaskTracker.get]
      by_cases hc : child = c
      · subst hc
        rw [if_pos rfl, afind?_amodify_self, hfind]
        cases d <;> by_cases ht : t.type_name = none ∧ fn.isSome <;>
          simp [TaskInfo.touch, ht]
      · rw [if_neg hc, afind?_amodify_ne _ _ (fun hh => hc hh.symm)]
    | none =>
      simp only [isRoot?, TaskTracker.get]
      by_cases hc : child = c
      · subst hc
        rw [if_pos rfl, afind?_amodify_self, afind?_amodify_self, hfind]
        cases d <;> by_cases ht : t.type_name = none ∧ fn.isSome <;>
          simp [TaskInfo.touch, ht]
      · rw [if_neg hc, afind?_amodify_ne _ _ (fun hh => hc hh.symm),
          afind?_amodify_ne _ _ (fun hh => hc hh.symm)]
  | none =>
    have hfind : afind? st.task_tracker.tasks child = none := hget
    cases hpar : p.orElse fun _ => (st.scope_manager.get tid).bind PollScope.top with
    | some parent_id =>
      cases d with
      | none =>
        simp only [isRoot?, TaskTracker.get, TaskTracker.register, TaskInfo.new]
        by_cases hc : child = c
        · subst hc
          rw [if_pos rfl, afind?_ainsert_absent _ hfind, hfind]
          simp
        · rw [if_neg hc, afind?_ainsert_ne _ _ (fun hh => hc hh.symm)]
      | some dd =>
        simp only [isRoot?, TaskTracker.get, TaskTracker.register, TaskInfo.new]
        by_cases hc : child = c
        · subst hc
          rw [if_pos rfl, afind?_ainsert_absent _ hfind, hfind]
          simp
        · rw [if_neg hc, afind?_ainsert_ne _ _ (fun hh => hc hh.symm)]
    | none =>
      cases d with
      | none =>
        simp only [isRoot?, TaskTracker.get, TaskTracker.register, TaskInfo.new]
        by_cases hc : child = c
        · subst hc
          rw [if_pos rfl, afind?_amodify_self, afind?_ainsert_absent _ hfind, hfind]
          simp
        · rw [if_neg hc, afind?_amodify_ne _ _ (fun hh => hc hh.symm),
            afind?_ainsert_ne _ _ (fun hh => hc hh.symm)]
      | some dd =>
        simp only [isRoot?, TaskTracker.get, TaskTracker.register, TaskInfo.new]
        by_cases hc : child = c
        · subst hc
          rw [if_pos rfl, afind?_amodify_self, afind?_ainsert_absent _ hfind, hfind]
          simp
        · rw [if_neg hc, afind?_amodify_ne _ _ (fun hh => hc hh.symm),
            afind?_ainsert_ne _ _ (fun hh => hc hh.symm)]

/-- C7 (amended): after replaying any event sequence, a task's `is_root` flag
is `true` iff it was already `true` at the start or some replayed poll entry
for that task observed no parent (neither explicit nor scope-derived).  In
particular the flag is never cleared: observing a parent on a later entry
does not make the task non-root again. -/
theorem C7_is_root_iff_saw_no_parent (evs : List TrackerEv) (st : AsyncTracker) (c : Nat) :
    isRoot? (runT st evs) c = some true ↔
      (isRoot? st c = some true ∨ sawNoParent c st evs = true) := by
  induction evs generalizing st with
  | nil => simp [runT, sawNoParent]
  | cons ev evs ih =>
    have hrun : runT st (ev :: evs) = runT (stepT st ev) evs := by simp [runT]
    rw [hrun, ih]
    cases ev with
    | pollEntry tid child rip p d fn now =>
      simp only [sawNoParent]
      rw [isRoot?_entry]
      by_cases hc : child = c
      · subst hc
        rw [if_pos rfl]
        cases hold : isRoot? st child with
        | none => simp [hold, Bool.or_eq_true, or_assoc]
        | some b => cases b <;> simp [hold, Bool.or_eq_true, or_assoc]
      · rw [if_neg hc]
        simp [hc]
    | pollExit tid rip r =>
      simp only [sawNoParent]
      rw [isRoot?_exit]
      simp
    | resyncStack tid a =>
      simp only [sawNoParent]
      rw [isRoot?_resync]
      simp

/-- C7 counterexample: after the second entry a parent (99) HAS been observed
for task 10 — an edge from 99 to 10 is recorded — yet `is_root` is still
`true`, so "is_root iff no parent was ever observed" fails on the code. -/
theorem C7_counterexample_root_despite_parent :
    isRoot? (runT AsyncTracker.new demoRootEvs) 10 = some true ∧
    (runT AsyncTracker.new demoRootEvs).edge_tracker.edges.length = 1 ∧
    resolvedParent (stepT AsyncTracker.new (TrackerEv.pollEntry 1 10 0 none none none 0))
      1 (some 99) = some 99 := by
  refine ⟨?_, ?_, rfl⟩ <;> rfl
